import Mathlib

/-!
Verification of the mock-mcp server core (Go) against its specification.

The Go sources are shallowly embedded:
* `internal/mcp/github_sync.go` — the test-case matcher (`FindMatchingTestCase`,
  `matchArguments`, `valuesMatch`, `toFloat64`) and the URL credential handling
  (`getAuthenticatedURL`, `sanitizeURLForLogging`);
* `internal/mcp/tools.go` — the tool registry loader (`loadToolsFromYAML`) and
  the reload step performed by the file watcher;
* `internal/mcp/webhook.go` — the webhook handler (`HandleWebhook`,
  `handlePushEvent`, `verifySignatureWithBody`) including a full executable
  model of HMAC-SHA256.

Go `interface{}` argument values are modelled by the inductive `GoValue`;
the dynamic numeric types carry their mathematical value, and `float64`/
`float32` payloads are modelled by `GoFloat` (an exact rational, an infinity,
or NaN).  Go's run-time panic on `==` between two values of the same
uncomparable dynamic type (maps, slices) is modelled by `Option`: `none`
is a panic.  The filesystem consulted by the fixture search is modelled by
a function from sequence number to the state of the fixture file.
-/

namespace MockMCP

/-- Model of a Go `float64`/`float32` value: an exact finite rational,
a signed infinity, or NaN. -/
inductive GoFloat where
  | finite (q : ℚ)
  | inf (pos : Bool)
  | nan
deriving DecidableEq

/-- Go `==` on two `float64` values: finite and infinite values compare by
value, NaN compares unequal to everything (including itself). -/
def GoFloat.goEqF : GoFloat → GoFloat → Bool
  | .finite a, .finite b => decide (a = b)
  | .inf a, .inf b => decide (a = b)
  | _, _ => false

/-- Model of the Go `interface{}` values that appear as tool-call arguments
and fixture expected arguments: the YAML/JSON scalar types, every numeric
dynamic type handled by `toFloat64`, and nested maps and slices.
Each numeric constructor carries the mathematical value held by the Go value
of that dynamic type. -/
inductive GoValue where
  | vNull
  | vBool (b : Bool)
  | vString (s : String)
  | vFloat64 (f : GoFloat)
  | vFloat32 (f : GoFloat)
  | vInt (n : Int)
  | vInt8 (n : Int)
  | vInt16 (n : Int)
  | vInt32 (n : Int)
  | vInt64 (n : Int)
  | vUint (n : Nat)
  | vUint8 (n : Nat)
  | vUint16 (n : Nat)
  | vUint32 (n : Nat)
  | vUint64 (n : Nat)
  | vMap (entries : List (String × GoValue))
  | vSlice (elems : List GoValue)

/-- Round a natural number to the nearest `float64` value
(round to nearest, ties to even, 53-bit significand), as an exact rational.
This models Go's integer-to-`float64` conversion. -/
def roundNatToFloat64 (a : Nat) : ℚ :=
  if a ≤ 2 ^ 53 then (a : ℚ)
  else
    let shift := a.log2 - 52
    let q := a / 2 ^ shift
    let r := a % 2 ^ shift
    let q2 := if 2 * r < 2 ^ shift then q
              else if 2 ^ shift < 2 * r then q + 1
              else if q % 2 = 0 then q else q + 1
    (q2 : ℚ) * 2 ^ shift

/-- Round an integer to the nearest `float64` value, as an exact rational. -/
def roundIntToFloat64 (n : Int) : ℚ :=
  if 0 ≤ n then roundNatToFloat64 n.toNat else - roundNatToFloat64 (-n).toNat

/-- Embedding of `toFloat64` (github_sync.go): convert any numeric dynamic
type to `float64`; the second component is the `ok` flag, `(0, false)` for
non-numeric values. -/
def toFloat64 : GoValue → GoFloat × Bool
  | .vFloat64 f => (f, true)
  | .vFloat32 f => (f, true)
  | .vInt n => (.finite (roundIntToFloat64 n), true)
  | .vInt8 n => (.finite (roundIntToFloat64 n), true)
  | .vInt16 n => (.finite (roundIntToFloat64 n), true)
  | .vInt32 n => (.finite (roundIntToFloat64 n), true)
  | .vInt64 n => (.finite (roundIntToFloat64 n), true)
  | .vUint n => (.finite (roundNatToFloat64 n), true)
  | .vUint8 n => (.finite (roundNatToFloat64 n), true)
  | .vUint16 n => (.finite (roundNatToFloat64 n), true)
  | .vUint32 n => (.finite (roundNatToFloat64 n), true)
  | .vUint64 n => (.finite (roundNatToFloat64 n), true)
  | _ => (.finite 0, false)

/-- Go interface equality `expected == actual` (the final fallback of
`valuesMatch`): values of different dynamic types compare `false`; values
of the same comparable dynamic type compare by value; two maps or two
slices have the same uncomparable dynamic type, so the comparison panics
at run time, modelled by `none`. -/
def goEq : GoValue → GoValue → Option Bool
  | .vNull, .vNull => some true
  | .vBool a, .vBool b => some (decide (a = b))
  | .vString a, .vString b => some (decide (a = b))
  | .vFloat64 a, .vFloat64 b => some (GoFloat.goEqF a b)
  | .vFloat32 a, .vFloat32 b => some (GoFloat.goEqF a b)
  | .vInt a, .vInt b => some (decide (a = b))
  | .vInt8 a, .vInt8 b => some (decide (a = b))
  | .vInt16 a, .vInt16 b => some (decide (a = b))
  | .vInt32 a, .vInt32 b => some (decide (a = b))
  | .vInt64 a, .vInt64 b => some (decide (a = b))
  | .vUint a, .vUint b => some (decide (a = b))
  | .vUint8 a, .vUint8 b => some (decide (a = b))
  | .vUint16 a, .vUint16 b => some (decide (a = b))
  | .vUint32 a, .vUint32 b => some (decide (a = b))
  | .vUint64 a, .vUint64 b => some (decide (a = b))
  | .vMap _, .vMap _ => none
  | .vSlice _, .vSlice _ => none
  | _, _ => some false

/-- Embedding of `valuesMatch` (github_sync.go): numeric values compare as
`float64` after conversion; then both-string and both-bool compare by value;
every other pairing falls back to Go interface equality, which may panic
(`none`). -/
def valuesMatch (expected actual : GoValue) : Option Bool :=
  let ef := toFloat64 expected
  let af := toFloat64 actual
  if ef.2 && af.2 then some (GoFloat.goEqF ef.1 af.1)
  else
    match expected, actual with
    | .vString es, .vString bs => some (decide (es = bs))
    | .vBool eb, .vBool ab2 => some (decide (eb = ab2))
    | e, a => goEq e a

/-- Loop body of `matchArguments`: check every expected key against the
call's arguments (a Go map, modelled as a lookup function).  A missing key
or a mismatching value yields `some false`; a panic inside `valuesMatch`
propagates as `none`. -/
def matchArgsList : List (String × GoValue) → (String → Option GoValue) → Option Bool
  | [], _ => some true
  | (key, ev) :: rest, actual =>
    match actual key with
    | none => some false
    | some av =>
      match valuesMatch ev av with
      | none => none
      | some false => some false
      | some true => matchArgsList rest actual

/-- Embedding of `matchArguments` (github_sync.go): an empty expected set
matches unconditionally; otherwise every expected key must be present and
match. -/
def matchArguments (expected : List (String × GoValue))
    (actual : String → Option GoValue) : Option Bool :=
  if expected.isEmpty then some true else matchArgsList expected actual

/-- Embedding of `ContentBlock` (types.go). -/
structure ContentBlock where
  type : String
  text : String
  json : GoValue

/-- Embedding of `ToolResult` (types.go). -/
structure ToolResult where
  content : List ContentBlock
  isError : Bool

/-- Embedding of `TestCaseConfig` (types.go): one fixture, the expected
input arguments and the canned response. -/
structure TestCaseConfig where
  input : List (String × GoValue)
  response : ToolResult

/-- State of the fixture file for one (tool, sequence number): missing,
present but failing to parse, or parsed to a `TestCaseConfig`.  This models
the `os.Stat` / `loadTestCase` pair in `FindMatchingTestCase`. -/
inductive FixtureFile where
  | absent
  | unparseable
  | parsed (tc : TestCaseConfig)

/-- The search loop of `FindMatchingTestCase` over a list of sequence
numbers: a missing file is skipped, a parse error is logged and skipped,
the first fixture whose expected arguments match is returned.  The outer
`Option` models a run-time panic inside the argument comparison
(`none` = panic); `some none` means the loop fell through with no match. -/
def findLoop (fs : Nat → FixtureFile) (args : String → Option GoValue) :
    List Nat → Option (Option TestCaseConfig)
  | [] => some none
  | i :: rest =>
    match fs i with
    | .absent => findLoop fs args rest
    | .unparseable => findLoop fs args rest
    | .parsed tc =>
      match matchArguments tc.input args with
      | none => none
      | some true => some (some tc)
      | some false => findLoop fs args rest

/-- The sequence numbers scanned by `FindMatchingTestCase`: 1 through 100
in ascending order. -/
def seqNumbers : List Nat := List.range' 1 100

/-- Embedding of `FindMatchingTestCase` (github_sync.go): scan fixtures
1..100 in order; on no match, if `defaultTestCase > 0` and that fixture
exists and parses, return it, else report no match (`some none`). -/
def FindMatchingTestCase (fs : Nat → FixtureFile) (args : String → Option GoValue)
    (defaultTestCase : Int) : Option (Option TestCaseConfig) :=
  match findLoop fs args seqNumbers with
  | none => none
  | some (some tc) => some (some tc)
  | some none =>
    if 0 < defaultTestCase then
      match fs defaultTestCase.toNat with
      | .parsed tc => some (some tc)
      | _ => some none
    else some none

/-- Sequence number `j` is passed over by the search loop: its fixture file
is missing, or fails to parse, or parses but does not match the call. -/
def skipsAt (fs : Nat → FixtureFile) (args : String → Option GoValue) (j : Nat) : Bool :=
  match fs j with
  | .absent => true
  | .unparseable => true
  | .parsed tc => matchArguments tc.input args == some false

lemma findLoop_range_found (fs : Nat → FixtureFile) (args : String → Option GoValue)
    (i : Nat) (tc : TestCaseConfig)
    (hi : fs i = .parsed tc) (hm : matchArguments tc.input args = some true) :
    ∀ (n a : Nat), a ≤ i → i < a + n →
      (∀ j, j < i → a ≤ j → skipsAt fs args j = true) →
      findLoop fs args (List.range' a n) = some (some tc) := by
  intro n
  induction n with
  | zero => intro a h1 h2 _; omega
  | succ n ih =>
    intro a h1 h2 hskip
    rw [List.range'_succ]
    by_cases hai : a = i
    · subst hai
      simp [findLoop, hi, hm]
    · have ha : a < i := lt_of_le_of_ne h1 hai
      have hs := hskip a ha le_rfl
      have htail : findLoop fs args (List.range' (a + 1) n) = some (some tc) :=
        ih (a + 1) ha (by omega) (fun j hj1 hj2 => hskip j hj1 (by omega))
      unfold skipsAt at hs
      cases hfa : fs a with
      | absent => simpa [findLoop, hfa] using htail
      | unparseable => simpa [findLoop, hfa] using htail
      | parsed tc2 =>
        rw [hfa] at hs
        have hf : matchArguments tc2.input args = some false := by
          simpa using hs
        simpa [findLoop, hfa, hf] using htail

lemma findLoop_range_none (fs : Nat → FixtureFile) (args : String → Option GoValue) :
    ∀ (n a : Nat),
      (∀ j, j < a + n → a ≤ j → skipsAt fs args j = true) →
      findLoop fs args (List.range' a n) = some none := by
  intro n
  induction n with
  | zero => intro a _; simp [findLoop]
  | succ n ih =>
    intro a hskip
    rw [List.range'_succ]
    have hs := hskip a (by omega) le_rfl
    have htail : findLoop fs args (List.range' (a + 1) n) = some none :=
      ih (a + 1) (fun j hj1 hj2 => hskip j (by omega) (by omega))
    unfold skipsAt at hs
    cases hfa : fs a with
    | absent => simpa [findLoop, hfa] using htail
    | unparseable => simpa [findLoop, hfa] using htail
    | parsed tc2 =>
      rw [hfa] at hs
      have hf : matchArguments tc2.input args = some false := by simpa using hs
      simpa [findLoop, hfa, hf] using htail

/-- Claim C1: `FindMatchingTestCase` scans fixture sequence numbers 1..100
in ascending order, skipping numbers whose fixture file is missing and
skipping fixtures that fail to parse, and returns the fixture at the lowest
sequence number whose expected arguments match the call; every fixture
below the returned one is missing, unparseable, or non-matching, so if
fixtures 1 and 3 both match the call, fixture 1 is returned (instantiate
with `i = 1`, where the premise on lower numbers is vacuous). -/
theorem c1_search_order (fs : Nat → FixtureFile) (args : String → Option GoValue)
    (d : Int) (i : Nat) (tc : TestCaseConfig)
    (h1 : 1 ≤ i) (h2 : i ≤ 100)
    (hi : fs i = .parsed tc)
    (hm : matchArguments tc.input args = some true)
    (hskip : ∀ j, j < i → 1 ≤ j → skipsAt fs args j = true) :
    FindMatchingTestCase fs args d = some (some tc) := by
  unfold FindMatchingTestCase seqNumbers
  rw [findLoop_range_found fs args i tc hi hm 100 1 h1 (by omega) hskip]

/-- Claim C5: when no fixture among 1..100 matches the call, a zero default
index yields no match (`some none`); a positive default index returns that
fixture whenever it exists and parses — with no condition on its own input
arguments — and yields no match when the default fixture is missing or
unparseable. -/
theorem c5_default_fallback (fs : Nat → FixtureFile) (args : String → Option GoValue)
    (d : Int)
    (hnone : ∀ j, j < 101 → 1 ≤ j → skipsAt fs args j = true) :
    (d = 0 → FindMatchingTestCase fs args d = some none) ∧
    (∀ tc, 0 < d → fs d.toNat = .parsed tc →
      FindMatchingTestCase fs args d = some (some tc)) ∧
    (0 < d → (fs d.toNat = .absent ∨ fs d.toNat = .unparseable) →
      FindMatchingTestCase fs args d = some none) := by
  have hfall : findLoop fs args seqNumbers = some none := by
    unfold seqNumbers
    exact findLoop_range_none fs args 100 1
      (fun j hj1 hj2 => hnone j (by omega) hj2)
  refine ⟨?_, ?_, ?_⟩
  · intro hd
    subst hd
    simp [FindMatchingTestCase, hfall]
  · intro tc hd htc
    simp [FindMatchingTestCase, hfall, hd, htc]
  · intro hd habs
    rcases habs with h | h <;> simp [FindMatchingTestCase, hfall, hd, h]

/-- A concrete fixture: expected input `{message: "Hello, World!"}`,
response text `"Echo: Hello, World!"`. -/
def tcHello : TestCaseConfig :=
  { input := [("message", GoValue.vString "Hello, World!")],
    response := { content := [{ type := "text", text := "Echo: Hello, World!",
                                json := GoValue.vNull }],
                  isError := false } }

/-- A concrete fixture directory: fixture 1 missing, fixture 2 present but
unparseable, fixture 3 parsed as `tcHello`, everything else missing. -/
def fsW1 : Nat → FixtureFile := fun n =>
  if n = 1 then .absent
  else if n = 2 then .unparseable
  else if n = 3 then .parsed tcHello
  else .absent

/-- A fixture directory with no fixture files at all. -/
def fsEmpty : Nat → FixtureFile := fun _ => .absent

/-- Concrete call arguments `{message: "Hello, World!"}`. -/
def argsHello : String → Option GoValue :=
  fun k => if k = "message" then some (GoValue.vString "Hello, World!") else none

/-- Concrete call arguments `{message: "Bye"}`. -/
def argsBye : String → Option GoValue :=
  fun k => if k = "message" then some (GoValue.vString "Bye") else none

/-- Witness for C1: with fixture 1 missing, fixture 2 unparseable and
fixture 3 matching, the search returns fixture 3. -/
theorem c1_search_order_witness :
    FindMatchingTestCase fsW1 argsHello 0 = some (some tcHello) :=
  c1_search_order fsW1 argsHello 0 3 tcHello (by decide) (by decide)
    (by rfl) (by decide) (by decide)

/-- Witness for C5: with no fixture present and default 0 the search
reports no match, and with a non-matching call (`{message: "Bye"}`) and
default index 3 the (non-matching) fixture 3 is returned regardless of its
own expected input. -/
theorem c5_default_fallback_witness :
    FindMatchingTestCase fsEmpty argsHello 0 = some none ∧
    FindMatchingTestCase fsW1 argsBye 3 = some (some tcHello) :=
  ⟨(c5_default_fallback fsEmpty argsHello 0 (by decide)).1 rfl,
   (c5_default_fallback fsW1 argsBye 3 (by decide)).2.1 tcHello (by decide) (by rfl)⟩

lemma matchArgsList_eq_true_iff (l : List (String × GoValue))
    (actual : String → Option GoValue) :
    matchArgsList l actual = some true ↔
      ∀ p ∈ l, ∃ av, actual p.1 = some av ∧ valuesMatch p.2 av = some true := by
  induction l with
  | nil => simp [matchArgsList]
  | cons hd rest ih =>
    obtain ⟨k, ev⟩ := hd
    cases hak : actual k with
    | none =>
      simp only [matchArgsList, hak]
      constructor
      · intro h; cases h
      · intro h
        obtain ⟨av, hav, _⟩ := h (k, ev) (List.mem_cons_self _ _)
        rw [hak] at hav; cases hav
    | some av =>
      cases hvm : valuesMatch ev av with
      | none =>
        simp only [matchArgsList, hak, hvm]
        constructor
        · intro h; cases h
        · intro h
          obtain ⟨av2, hav2, hm2⟩ := h (k, ev) (List.mem_cons_self _ _)
          rw [hak] at hav2
          cases hav2
          rw [hvm] at hm2; cases hm2
      | some bres =>
        cases bres with
        | false =>
          simp only [matchArgsList, hak, hvm]
          constructor
          · intro h; cases h
          · intro h
            obtain ⟨av2, hav2, hm2⟩ := h (k, ev) (List.mem_cons_self _ _)
            rw [hak] at hav2
            cases hav2
            rw [hvm] at hm2; cases hm2
        | true =>
          simp only [matchArgsList, hak, hvm]
          rw [ih]
          constructor
          · intro h p hp
            rcases List.mem_cons.mp hp with hp | hp
            · subst hp; exact ⟨av, hak, hvm⟩
            · exact h p hp
          · intro h p hp
            exact h p (List.mem_cons_of_mem _ hp)

lemma matchArgsList_congr (l : List (String × GoValue))
    (actual actual2 : String → Option GoValue)
    (hagree : ∀ p ∈ l, actual2 p.1 = actual p.1) :
    matchArgsList l actual2 = matchArgsList l actual := by
  induction l with
  | nil => rfl
  | cons hd rest ih =>
    obtain ⟨k, ev⟩ := hd
    have hk : actual2 k = actual k := hagree (k, ev) (List.mem_cons_self _ _)
    have hrest := ih (fun p hp => hagree p (List.mem_cons_of_mem _ hp))
    cases hak : actual k with
    | none => simp only [matchArgsList, hk, hak]
    | some av =>
      cases hvm : valuesMatch ev av with
      | none => simp only [matchArgsList, hk, hak, hvm]
      | some bres =>
        cases bres with
        | false => simp only [matchArgsList, hk, hak, hvm]
        | true =>
          simp only [matchArgsList, hk, hak, hvm]
          exact hrest

/-- Claim C2: a fixture with an empty expected-argument set matches any
call; a fixture with a non-empty expected set matches exactly when every
expected key is present in the call's arguments with a value that matches
under the value-matching rule; and the outcome depends only on the call's
values at the expected keys, so keys present in the call but absent from
the expected set never affect it (subset match, not exact match). -/
theorem c2_subset_match (expected : List (String × GoValue))
    (actual : String → Option GoValue) :
    (expected = [] → matchArguments expected actual = some true) ∧
    (matchArguments expected actual = some true ↔
      ∀ p ∈ expected, ∃ av, actual p.1 = some av ∧ valuesMatch p.2 av = some true) ∧
    (∀ actual2, (∀ p ∈ expected, actual2 p.1 = actual p.1) →
      matchArguments expected actual2 = matchArguments expected actual) := by
  refine ⟨?_, ?_, ?_⟩
  · intro h; subst h; rfl
  · cases expected with
    | nil => simp [matchArguments]
    | cons hd rest =>
      rw [matchArguments, if_neg (by simp)]
      exact matchArgsList_eq_true_iff _ _
  · intro actual2 hagree
    cases expected with
    | nil => rfl
    | cons hd rest =>
      rw [matchArguments, matchArguments, if_neg (by simp), if_neg (by simp)]
      exact matchArgsList_congr _ _ _ hagree

/-- Witness for C2: the empty expected set matches arbitrary arguments; a
one-key expected set matches a call carrying that key (plus an extra key)
and adding a further irrelevant key leaves the outcome unchanged. -/
theorem c2_subset_match_witness :
    matchArguments [] argsHello = some true ∧
    matchArguments [("message", GoValue.vString "Hello, World!")]
      (fun k => if k = "extra" then some (GoValue.vBool true) else argsHello k)
      = matchArguments [("message", GoValue.vString "Hello, World!")] argsHello :=
  ⟨(c2_subset_match [] argsHello).1 rfl,
   (c2_subset_match [("message", GoValue.vString "Hello, World!")] argsHello).2.2
     (fun k => if k = "extra" then some (GoValue.vBool true) else argsHello k)
     (by intro p hp; rw [List.mem_singleton] at hp; subst hp; rfl)⟩

lemma goEqF_eq_true_iff (fa fb : GoFloat)
    (hna : fa ≠ GoFloat.nan) (hnb : fb ≠ GoFloat.nan) :
    GoFloat.goEqF fa fb = true ↔ fa = fb := by
  cases fa <;> cases fb <;> simp_all [GoFloat.goEqF]

/-- Claim C3: two argument values of any numeric dynamic type (any
bit-width or signedness) compare equal under the value-matching rule
exactly when their normalizations to the common numeric representation
(`float64`) are equal; an integer value is normalized by the rounding
conversion `roundIntToFloat64`/`roundNatToFloat64`, so integer `5` and
floating `5.0` compare equal.  NaN, which has no mathematical value, is
excluded from the statement (Go compares NaN unequal to itself). -/
theorem c3_numeric_equality (a b : GoValue) (fa fb : GoFloat)
    (ha : toFloat64 a = (fa, true)) (hb : toFloat64 b = (fb, true))
    (hna : fa ≠ GoFloat.nan) (hnb : fb ≠ GoFloat.nan) :
    (valuesMatch a b = some true ↔ fa = fb) := by
  unfold valuesMatch
  rw [ha, hb]
  simp only [Bool.and_self, if_true, Option.some.injEq]
  exact goEqF_eq_true_iff fa fb hna hnb

/-- Witness for C3: the integer `5` and the floating-point `5.0` compare
equal under the value-matching rule. -/
theorem c3_numeric_equality_witness :
    valuesMatch (GoValue.vInt 5) (GoValue.vFloat64 (GoFloat.finite 5)) = some true :=
  (c3_numeric_equality (GoValue.vInt 5) (GoValue.vFloat64 (GoFloat.finite 5))
    (GoFloat.finite 5) (GoFloat.finite 5) (by decide) (by decide)
    (by decide) (by decide)).mpr rfl

/-- Dynamic-type test: is the value a Go `string`? -/
def isStringV : GoValue → Bool
  | .vString _ => true
  | _ => false

/-- Dynamic-type test: is the value a Go `bool`? -/
def isBoolV : GoValue → Bool
  | .vBool _ => true
  | _ => false

/-- Dynamic-type test: is the value a Go map? -/
def isMapV : GoValue → Bool
  | .vMap _ => true
  | _ => false

/-- Dynamic-type test: is the value a Go slice? -/
def isSliceV : GoValue → Bool
  | .vSlice _ => true
  | _ => false

/-- The two values have the same uncomparable dynamic type: both are maps
or both are slices.  Go `==` panics exactly on such pairs. -/
def sameUncomparable (a b : GoValue) : Bool :=
  (isMapV a && isMapV b) || (isSliceV a && isSliceV b)

lemma goEq_none_iff (a b : GoValue) :
    goEq a b = none ↔ sameUncomparable a b = true := by
  cases a <;> cases b <;>
    first
      | exact iff_of_true rfl rfl
      | exact iff_of_false (fun h => nomatch h) (fun h => nomatch h)

/-- Claim C4 counterexample: comparing two (empty) map values falls through
to the Go `==` fallback on two values of the same uncomparable dynamic
type (`map[string]interface{}`), which panics at run time (`none`) instead
of returning a boolean, refuting the claim that the comparison is total. -/
theorem c4_counterexample :
    valuesMatch (GoValue.vMap []) (GoValue.vMap []) = none := rfl

/-- Claim C4 (amended): for value pairs that are neither both numeric, nor
both strings, nor both booleans, `valuesMatch` evaluates the fallback Go
interface equality of the two raw values; that fallback returns a boolean
whenever the dynamic types differ or the common dynamic type is comparable,
but it panics (modelled by `none`) exactly when both values are maps or
both are slices — the same uncomparable dynamic type. -/
theorem c4_fallback (a b : GoValue)
    (hnum : ¬((toFloat64 a).2 = true ∧ (toFloat64 b).2 = true))
    (hstr : ¬(isStringV a = true ∧ isStringV b = true))
    (hbool : ¬(isBoolV a = true ∧ isBoolV b = true)) :
    valuesMatch a b = goEq a b ∧
    (valuesMatch a b = none ↔ sameUncomparable a b = true) := by
  have h1 : valuesMatch a b = goEq a b := by
    cases a <;> cases b <;>
      first
        | rfl
        | exact absurd ⟨rfl, rfl⟩ hnum
  exact ⟨h1, h1 ▸ goEq_none_iff a b⟩

/-- Witness for C4 (amended): a map compared against a slice (different
dynamic types) reaches the fallback and returns a boolean, not a panic. -/
theorem c4_fallback_witness :
    valuesMatch (GoValue.vMap [("k", GoValue.vNull)]) (GoValue.vSlice [])
      = goEq (GoValue.vMap [("k", GoValue.vNull)]) (GoValue.vSlice []) :=
  (c4_fallback (GoValue.vMap [("k", GoValue.vNull)]) (GoValue.vSlice [])
    (by decide) (by decide) (by decide)).1

/-- Embedding of `ToolConfig` (types.go): one entry of the YAML tool list. -/
structure ToolConfig where
  name : String
  description : String
  inputSchema : GoValue
  handler : String
  defaultTestCase : Int

/-- Embedding of `Tool` (types.go): one registered tool descriptor. -/
structure Tool where
  name : String
  description : String
  inputSchema : GoValue
  defaultTestCase : Int

/-- Embedding of `ToolsConfig` (types.go): the parsed config document. -/
structure ToolsConfig where
  tools : List ToolConfig

/-- The registry's tool map `map[string]Tool`, modelled as a finite partial
function from identifier to descriptor. -/
def Registry : Type := String → Option Tool

/-- Go map insertion `m[k] = v`: update the partial function at `k`. -/
def goMapInsert (m : Registry) (k : String) (v : Tool) : Registry :=
  fun q => if q = k then some v else m q

/-- The `Tool` built from a `ToolConfig` entry in `loadToolsFromYAML`
(tools.go lines 93-98). -/
def toolOfConfig (tc : ToolConfig) : Tool :=
  { name := tc.name, description := tc.description,
    inputSchema := tc.inputSchema, defaultTestCase := tc.defaultTestCase }

/-- Outcome of reading and parsing the config document in
`loadToolsFromYAML`: `os.ReadFile` failure, `yaml.Unmarshal` failure, or a
parsed `ToolsConfig`. -/
inductive ConfigRead where
  | readError
  | parseError
  | parsed (cfg : ToolsConfig)

/-- The fresh tool map built by `loadToolsFromYAML` after a successful
parse: start from an empty map and insert every entry in document order,
so a later entry with the same name overwrites an earlier one. -/
def buildTools (cfg : ToolsConfig) : Registry :=
  cfg.tools.foldl (fun m tc => goMapInsert m tc.name (toolOfConfig tc)) (fun _ => none)

/-- Embedding of `loadToolsFromYAML` (tools.go): a read or parse failure
returns an error before the registry lock is taken (`none`); otherwise the
freshly built map replaces the registry under the write lock. -/
def loadToolsFromYAML (doc : ConfigRead) : Option Registry :=
  match doc with
  | .readError => none
  | .parseError => none
  | .parsed cfg => some (buildTools cfg)

/-- One reload step as performed by `watchFileChanges` (tools.go): on a
load error the previous registry is kept (the error is only logged);
otherwise the new registry replaces it.  The clear-and-refill inside
`loadToolsFromYAML` happens under the registry's write lock, so readers
(`GetTool`, `GetAllTools`, which take the read lock) observe only the
pre-reload and post-reload snapshots; the step is therefore modelled as an
atomic state transition. -/
def reloadStep (reg : Registry) (doc : ConfigRead) : Registry :=
  match loadToolsFromYAML doc with
  | none => reg
  | some newReg => newReg

lemma lookup_foldl_ins (ts : List ToolConfig) (m : Registry) (k : String) :
    (ts.foldl (fun m tc => goMapInsert m tc.name (toolOfConfig tc)) m) k
      = match ts.reverse.find? (fun tc => tc.name == k) with
        | some tc => some (toolOfConfig tc)
        | none => m k := by
  induction ts generalizing m with
  | nil => simp
  | cons t rest ih =>
    rw [List.foldl_cons, ih, List.reverse_cons, List.find?_append]
    cases hfind : rest.reverse.find? (fun tc => tc.name == k) with
    | some tc => simp [hfind]
    | none =>
      simp only [hfind, Option.none_orElse, List.find?_singleton]
      by_cases hk : t.name = k
      · subst hk; simp [goMapInsert]
      · have hb : (t.name == k) = false := by simp [hk]
        have hk2 : ¬ k = t.name := fun h => hk h.symm
        simp [hb, goMapInsert, hk2]

/-- Claim C6: reload is all-or-nothing.  A read or parse failure leaves the
registry exactly as it was, and a reload step never yields a registry with
zero tools unless the new document itself defines zero tools (the swap is
atomic under the write lock, so the input and output of `reloadStep` are
the only observable snapshots). -/
theorem c6_reload_atomic (reg : Registry) (doc : ConfigRead) :
    ((doc = ConfigRead.readError ∨ doc = ConfigRead.parseError) →
      reloadStep reg doc = reg) ∧
    (∀ k0, reg k0 ≠ none → (∀ k, reloadStep reg doc k = none) →
      ∃ cfg, doc = ConfigRead.parsed cfg ∧ cfg.tools = []) := by
  constructor
  · rintro (h | h) <;> subst h <;> rfl
  · intro k0 hk0 hall
    cases doc with
    | readError => exact absurd (hall k0) hk0
    | parseError => exact absurd (hall k0) hk0
    | parsed cfg =>
      refine ⟨cfg, rfl, ?_⟩
      cases htools : cfg.tools with
      | nil => rfl
      | cons t rest =>
        have hlast := hall t.name
        rw [show reloadStep reg (ConfigRead.parsed cfg) = buildTools cfg from rfl] at hlast
        rw [buildTools, htools, lookup_foldl_ins] at hlast
        cases hfind : (t :: rest).reverse.find? (fun tc => tc.name == t.name) with
        | some tc => rw [hfind] at hlast; cases hlast
        | none =>
          have hmem : t ∈ (t :: rest).reverse := by simp
          have := List.find?_eq_none.mp hfind t hmem
          simp at this

/-- Witness for C6: a parse failure leaves a concrete one-tool registry
unchanged. -/
theorem c6_reload_atomic_witness :
    reloadStep (buildTools ⟨[⟨"mock_echo", "Echoes back the input message",
        GoValue.vNull, "", 0⟩]⟩) ConfigRead.parseError
      = buildTools ⟨[⟨"mock_echo", "Echoes back the input message",
        GoValue.vNull, "", 0⟩]⟩ :=
  (c6_reload_atomic _ ConfigRead.parseError).1 (Or.inr rfl)

/-- Claim C7 counterexample: the loader does not validate identifiers; a
document whose single entry has the empty name registers a descriptor
under the empty identifier, refuting the claim that every registered
identifier is non-empty. -/
theorem c7_counterexample :
    ¬ (∀ k, (buildTools ⟨[⟨"", "desc", GoValue.vNull, "", 0⟩]⟩ k).isSome →
        0 < k.length) := by
  intro h
  have := h "" (by rfl)
  simp at this

/-- Claim C7 (amended): after a successful load, the registry maps every
identifier to the descriptor of the last document entry bearing it
(duplicates are not rejected; later entries silently overwrite earlier
ones), and an identifier is registered exactly when some entry bears it.
The loader does not validate names, so an entry with an empty identifier
is registered under the empty key (see the counterexample). -/
theorem c7_last_write_wins (cfg : ToolsConfig) (k : String) :
    buildTools cfg k
      = (cfg.tools.reverse.find? (fun tc => tc.name == k)).map toolOfConfig ∧
    ((buildTools cfg k).isSome ↔ ∃ tc ∈ cfg.tools, tc.name = k) := by
  have hmain : buildTools cfg k
      = (cfg.tools.reverse.find? (fun tc => tc.name == k)).map toolOfConfig := by
    rw [buildTools, lookup_foldl_ins]
    cases cfg.tools.reverse.find? (fun tc => tc.name == k) <;> rfl
  refine ⟨hmain, ?_⟩
  constructor
  · intro hs
    rw [hmain] at hs
    cases hfind : cfg.tools.reverse.find? (fun tc => tc.name == k) with
    | none => rw [hfind] at hs; cases hs
    | some tc =>
      have hmem := List.mem_of_find?_eq_some hfind
      have hname := List.find?_some hfind
      exact ⟨tc, List.mem_reverse.mp hmem, by simpa using hname⟩
  · rintro ⟨tc, hmem, htc⟩
    rw [hmain]
    have hsome : (cfg.tools.reverse.find? (fun tc => tc.name == k)).isSome := by
      rw [List.find?_isSome]
      exact ⟨tc, List.mem_reverse.mpr hmem, by simpa using htc⟩
    cases hfind : cfg.tools.reverse.find? (fun tc => tc.name == k) with
    | none => rw [hfind] at hsome; cases hsome
    | some tc2 => rfl

/-- Go strings in the webhook and sync code are byte/character sequences;
they are modelled as lists of characters. -/
abbrev GoStr := List Char

/-- Truncate to a 32-bit word. -/
def w32 (n : Nat) : Nat := n % 4294967296

/-- Rotate a 32-bit word right by `n` bits. -/
def rotr32 (x n : Nat) : Nat := w32 (x / 2 ^ n + x * 2 ^ (32 - n))

/-- SHA-256 `Ch` function. -/
def shaCh (x y z : Nat) : Nat := (x &&& y) ^^^ ((4294967295 - x) &&& z)

/-- SHA-256 `Maj` function. -/
def shaMaj (x y z : Nat) : Nat := (x &&& y) ^^^ (x &&& z) ^^^ (y &&& z)

/-- SHA-256 `Σ0`. -/
def bigSigma0 (x : Nat) : Nat := rotr32 x 2 ^^^ rotr32 x 13 ^^^ rotr32 x 22

/-- SHA-256 `Σ1`. -/
def bigSigma1 (x : Nat) : Nat := rotr32 x 6 ^^^ rotr32 x 11 ^^^ rotr32 x 25

/-- SHA-256 `σ0`. -/
def smallSigma0 (x : Nat) : Nat := rotr32 x 7 ^^^ rotr32 x 18 ^^^ (x / 2 ^ 3)

/-- SHA-256 `σ1`. -/
def smallSigma1 (x : Nat) : Nat := rotr32 x 17 ^^^ rotr32 x 19 ^^^ (x / 2 ^ 10)

/-- The 64 SHA-256 round constants. -/
def sha256K : List Nat :=
  [1116352408, 1899447441, 3049323471, 3921009573, 961987163, 1508970993,
   2453635748, 2870763221, 3624381080, 310598401, 607225278, 1426881987,
   1925078388, 2162078206, 2614888103, 3248222580, 3835390401, 4022224774,
   264347078, 604807628, 770255983, 1249150122, 1555081692, 1996064986,
   2554220882, 2821834349, 2952996808, 3210313671, 3336571891, 3584528711,
   113926993, 338241895, 666307205, 773529912, 1294757372, 1396182291,
   1695183700, 1986661051, 2177026350, 2456956037, 2730485921, 2820302411,
   3259730800, 3345764771, 3516065817, 3600352804, 4094571909, 275423344,
   430227734, 506948616, 659060556, 883997877, 958139571, 1322822218,
   1537002063, 1747873779, 1955562222, 2024104815, 2227730452, 2361852424,
   2428436474, 2756734187, 3204031479, 3329325298]

/-- The SHA-256 initial hash value. -/
def sha256H0 : List Nat :=
  [1779033703, 3144134277, 1013904242, 2773480762,
   1359893119, 2600822924, 528734635, 1541459225]

/-- Render a value as `k` bytes, big-endian. -/
def bytesBE (v k : Nat) : List Nat :=
  (List.range k).map (fun i => v / 2 ^ (8 * (k - 1 - i)) % 256)

/-- SHA-256 message padding: append `128`, zero bytes to 56 mod 64, and
the 8-byte big-endian bit length. -/
def sha256Pad (msg : List Nat) : List Nat :=
  let z := (119 - msg.length % 64) % 64
  msg ++ [128] ++ List.replicate z 0 ++ bytesBE (8 * msg.length) 8

/-- Group a byte list into big-endian 32-bit words. -/
def toWords : List Nat → List Nat
  | a :: b :: c :: d :: rest => (((a * 256 + b) * 256 + c) * 256 + d) :: toWords rest
  | _ => []

/-- Split a byte list into 64-byte blocks. -/
def chunks64 (l : List Nat) : List (List Nat) :=
  if h : l = [] then []
  else l.take 64 :: chunks64 (l.drop 64)
termination_by l.length
decreasing_by
  have hlen : 0 < l.length := List.length_pos.mpr h
  simp only [List.length_drop]
  omega

/-- Extend a message schedule by one word. -/
def scheduleStep (w : List Nat) : List Nat :=
  let n := w.length
  w ++ [w32 (smallSigma1 (w.getD (n - 2) 0) + w.getD (n - 7) 0 +
             smallSigma0 (w.getD (n - 15) 0) + w.getD (n - 16) 0)]

/-- The 64-word SHA-256 message schedule of one block. -/
def schedule (block : List Nat) : List Nat :=
  (List.range 48).foldl (fun w _ => scheduleStep w) (toWords block)

/-- One SHA-256 compression round on the 8-word working state. -/
def compressRound (st : List Nat) (kw : Nat × Nat) : List Nat :=
  match st with
  | [a, b, c, d, e, f, g, h] =>
    let t1 := w32 (h + bigSigma1 e + shaCh e f g + kw.1 + kw.2)
    let t2 := w32 (bigSigma0 a + shaMaj a b c)
    [w32 (t1 + t2), a, b, c, w32 (d + t1), e, f, g]
  | s => s

/-- Compress one 64-byte block into the hash state. -/
def compressBlock (h0 : List Nat) (block : List Nat) : List Nat :=
  let st := (sha256K.zip (schedule block)).foldl compressRound h0
  (h0.zip st).map (fun p => w32 (p.1 + p.2))

/-- SHA-256 of a byte list, as a 32-byte list. -/
def sha256Bytes (msg : List Nat) : List Nat :=
  ((chunks64 (sha256Pad msg)).foldl compressBlock sha256H0).foldr
    (fun h acc => bytesBE h 4 ++ acc) []

/-- HMAC-SHA256 (crypto/hmac with sha256.New): keys longer than the
64-byte block are hashed, the key is zero-padded to the block size, and
the inner/outer pads are xored in. -/
def hmacSha256 (key msg : List Nat) : List Nat :=
  let k1 := if 64 < key.length then sha256Bytes key else key
  let k2 := k1 ++ List.replicate (64 - k1.length) 0
  sha256Bytes ((k2.map (fun b => b ^^^ 92)) ++
    sha256Bytes ((k2.map (fun b => b ^^^ 54)) ++ msg))

/-- Lowercase hexadecimal digit. -/
def hexDigit (n : Nat) : Char := if n < 10 then Char.ofNat (48 + n) else Char.ofNat (87 + n)

/-- Lowercase hexadecimal encoding of a byte list (hex.EncodeToString). -/
def hexOfBytes (bs : List Nat) : GoStr :=
  bs.foldr (fun b acc => hexDigit (b / 16) :: hexDigit (b % 16) :: acc) []

/-- The signature value GitHub sends and `verifySignatureWithBody`
recomputes: `"sha256=" ++ hex(HMAC-SHA256(secret, body))`. -/
def expectedSignature (secret body : List Nat) : GoStr :=
  "sha256=".toList ++ hexOfBytes (hmacSha256 secret body)

/-- Embedding of `verifySignatureWithBody` (webhook.go): an absent
signature header (Go's `Header.Get` returns the empty string) fails;
otherwise the header must equal the expected signature (hmac.Equal on
equal-length byte strings is equality, computed in constant time). -/
def verifySignatureWithBody (secret : List Nat) (signature : GoStr)
    (body : List Nat) : Bool :=
  if signature = [] then false
  else decide (signature = expectedSignature secret body)

/-- One commit of a GitHub push payload (webhook.go), with its added,
removed and modified file lists. -/
structure Commit where
  added : List GoStr
  removed : List GoStr
  modified : List GoStr

/-- The parsed push payload (`GitHubWebhookPayload`). -/
structure PushPayload where
  ref : GoStr
  repoFullName : GoStr
  commits : List Commit

/-- An inbound webhook HTTP request: method, raw body bytes, and the two
headers the handler reads (Go's `Header.Get` yields `""` for an absent
header, modelled as `[]`). -/
structure WebhookRequest where
  method : GoStr
  body : List Nat
  signatureHdr : GoStr
  eventHdr : GoStr

/-- The HTTP outcome of `HandleWebhook`. -/
inductive WebhookOutcome where
  | methodNotAllowed
  | unauthorized
  | missingEventType
  | internalError
  | ok
deriving DecidableEq

/-- Index of the last occurrence of a character (strings.LastIndex with a
one-character separator). -/
def lastIndexOfChar (c : Char) : GoStr → Option Nat
  | [] => none
  | x :: xs =>
    match lastIndexOfChar c xs with
    | some i => some (i + 1)
    | none => if x = c then some 0 else none

/-- strings.Contains(s, "/"). -/
def containsSlash (s : GoStr) : Bool := s.contains '/'

/-- strings.HasPrefix. -/
def strHasPre (s p : GoStr) : Bool := p.isPrefixOf s

/-- strings.HasSuffix. -/
def strHasSuf (s p : GoStr) : Bool := p.isSuffixOf s

/-- The config-path comparison key computed by `handlePushEvent`: the
containing directory with its trailing slash when the config path has a
directory component, else the config path itself (compared exactly). -/
def configDirPref (repoConfigPath : GoStr) : GoStr :=
  match lastIndexOfChar '/' repoConfigPath with
  | some idx => repoConfigPath.take (idx + 1)
  | none => repoConfigPath

/-- The fixtures-path comparison key computed by `handlePushEvent`: the
configured fixtures sub-path with a trailing slash ensured. -/
def testcasesDirPref (p : GoStr) : GoStr :=
  if strHasSuf p ['/'] then p else p ++ ['/']

/-- The per-file test of `handlePushEvent`: the file matches the config
path (prefix match on its containing directory when it has one, exact
match otherwise) or lies under the fixtures directory. -/
def fileTriggers (repoConfigPath repoTestcasesPath file : GoStr) : Bool :=
  let configMatches :=
    if containsSlash repoConfigPath then strHasPre file (configDirPref repoConfigPath)
    else decide (file = configDirPref repoConfigPath)
  let testcasesMatches := strHasPre file (testcasesDirPref repoTestcasesPath)
  configMatches || testcasesMatches

/-- The sync decision of `handlePushEvent`: some file in some commit's
added ++ modified ++ removed list triggers. -/
def shouldSyncB (repoConfigPath repoTestcasesPath : GoStr) (payload : PushPayload) : Bool :=
  payload.commits.any (fun c =>
    ((c.added ++ c.modified) ++ c.removed).any
      (fun f => fileTriggers repoConfigPath repoTestcasesPath f))

/-- Embedding of `handlePushEvent` (webhook.go).  `parseJSON` models
`json.Unmarshal` of the payload bytes; `syncOk` models the result of
`githubSync.Sync()`.  Result: (no error, Sync was invoked). -/
def handlePushEvent (repoConfigPath repoTestcasesPath : GoStr) (syncOk : Bool)
    (parseJSON : List Nat → Option PushPayload) (payload : List Nat) :
    Bool × Bool :=
  match parseJSON payload with
  | none => (false, false)
  | some webhookPayload =>
    if shouldSyncB repoConfigPath repoTestcasesPath webhookPayload then
      (syncOk, true)
    else (true, false)

/-- Embedding of `HandleWebhook` (webhook.go): reject non-POST; with a
secret configured, reject a missing or mismatching signature as
unauthorized; require the event-type header; process only `push` events;
any other event type is acknowledged without processing.  The second
component records whether `Sync` was invoked. -/
def HandleWebhook (secret : List Nat) (repoConfigPath repoTestcasesPath : GoStr)
    (syncOk : Bool) (parseJSON : List Nat → Option PushPayload)
    (req : WebhookRequest) : WebhookOutcome × Bool :=
  if req.method ≠ "POST".toList then (.methodNotAllowed, false)
  else if secret ≠ [] ∧ ¬ verifySignatureWithBody secret req.signatureHdr req.body = true then
    (.unauthorized, false)
  else if req.eventHdr = [] then (.missingEventType, false)
  else if req.eventHdr = "push".toList then
    match handlePushEvent repoConfigPath repoTestcasesPath syncOk parseJSON req.body with
    | (false, invoked) => (.internalError, invoked)
    | (true, invoked) => (.ok, invoked)
  else (.ok, false)

/-- Claim C8: while a shared secret is configured, a (POST) webhook
request whose signature header is absent or differs from the HMAC-SHA256
of the raw request body keyed by the secret is rejected as unauthorized,
and no Remote Sync is invoked.  The conclusion holds for every configured
path pair, every payload parse and every sync outcome, so the rejection is
decided before any commit file path is inspected. -/
theorem c8_signature_gate (secret : List Nat) (repoConfigPath repoTestcasesPath : GoStr)
    (syncOk : Bool) (parseJSON : List Nat → Option PushPayload) (req : WebhookRequest)
    (hsecret : secret ≠ [])
    (hmethod : req.method = "POST".toList)
    (hsig : req.signatureHdr = [] ∨
      req.signatureHdr ≠ expectedSignature secret req.body) :
    HandleWebhook secret repoConfigPath repoTestcasesPath syncOk parseJSON req
      = (WebhookOutcome.unauthorized, false) := by
  have hver : verifySignatureWithBody secret req.signatureHdr req.body = false := by
    rcases hsig with h | h
    · simp [verifySignatureWithBody, h]
    · simp [verifySignatureWithBody, h]
  rw [HandleWebhook, if_neg (by simp [hmethod]), if_pos ⟨hsecret, by simp [hver]⟩]

/-- A concrete webhook request with no signature header. -/
def reqNoSig : WebhookRequest :=
  { method := "POST".toList, body := [], signatureHdr := [], eventHdr := "push".toList }

/-- Witness for C8: with secret byte `97` configured and no signature
header supplied, the request is rejected as unauthorized and the sync flag
stays false (for an arbitrary parse function and path configuration). -/
theorem c8_signature_gate_witness :
    HandleWebhook [97] "config/tools.yaml".toList "testcases".toList true
      (fun _ => none) reqNoSig = (WebhookOutcome.unauthorized, false) :=
  c8_signature_gate [97] "config/tools.yaml".toList "testcases".toList true
    (fun _ => none) reqNoSig (by decide) rfl (Or.inl rfl)

/-- The spec's wording of a relevant path: it falls under the config
sub-path (exact equality when the config path has no directory component,
else prefix match on its containing directory) or under the fixtures
sub-path (always with directory semantics). -/
def specRelevantPath (repoConfigPath repoTestcasesPath file : GoStr) : Prop :=
  (if containsSlash repoConfigPath
   then strHasPre file (configDirPref repoConfigPath) = true
   else file = configDirPref repoConfigPath)
  ∨ strHasPre file (testcasesDirPref repoTestcasesPath) = true

/-- Claim C9: for a parsed push payload, Remote Sync is invoked by the
push handler exactly when some commit's added, modified or removed file
list contains a path that is relevant (under the config sub-path or the
fixtures sub-path in the sense of `specRelevantPath`). -/
theorem c9_push_paths (repoConfigPath repoTestcasesPath : GoStr) (syncOk : Bool)
    (parseJSON : List Nat → Option PushPayload) (body : List Nat)
    (payload : PushPayload)
    (hparse : parseJSON body = some payload) :
    ((handlePushEvent repoConfigPath repoTestcasesPath syncOk parseJSON body).2 = true ↔
      ∃ c ∈ payload.commits, ∃ f ∈ (c.added ++ c.modified) ++ c.removed,
        specRelevantPath repoConfigPath repoTestcasesPath f) := by
  have htr : ∀ f : GoStr, fileTriggers repoConfigPath repoTestcasesPath f = true ↔
      specRelevantPath repoConfigPath repoTestcasesPath f := by
    intro f
    rw [fileTriggers, specRelevantPath]
    cases hcs : containsSlash repoConfigPath <;> simp [hcs]
  rw [handlePushEvent, hparse]
  dsimp only
  cases hss : shouldSyncB repoConfigPath repoTestcasesPath payload with
  | true =>
    have hex := hss
    rw [shouldSyncB, List.any_eq_true] at hex
    obtain ⟨c, hc, hf⟩ := hex
    rw [List.any_eq_true] at hf
    obtain ⟨f, hfmem, hft⟩ := hf
    exact iff_of_true (by simp) ⟨c, hc, f, hfmem, (htr f).mp hft⟩
  | false =>
    refine iff_of_false (by simp) ?_
    rintro ⟨c, hc, f, hfmem, hrel⟩
    have hft := (htr f).mpr hrel
    have htrue : shouldSyncB repoConfigPath repoTestcasesPath payload = true := by
      rw [shouldSyncB, List.any_eq_true]
      exact ⟨c, hc, List.any_eq_true.mpr ⟨f, hfmem, hft⟩⟩
    rw [hss] at htrue
    cases htrue

/-- A push payload modifying only a fixture file. -/
def payloadEcho : PushPayload :=
  { ref := "refs/heads/main".toList, repoFullName := "o/r".toList,
    commits := [{ added := [], removed := [],
                  modified := ["testcases/mock_echo-test-case-2.yaml".toList] }] }

/-- A push payload modifying only the repository README. -/
def payloadReadme : PushPayload :=
  { ref := "refs/heads/main".toList, repoFullName := "o/r".toList,
    commits := [{ added := [], removed := [],
                  modified := ["README.md".toList] }] }

/-- Witness for C9: with fixtures path `testcases`, a push modifying
`testcases/mock_echo-test-case-2.yaml` invokes Sync, and a push modifying
only `README.md` does not. -/
theorem c9_push_paths_witness :
    (handlePushEvent "config/tools.yaml".toList "testcases".toList true
      (fun _ => some payloadEcho) []).2 = true ∧
    ¬ (handlePushEvent "config/tools.yaml".toList "testcases".toList true
      (fun _ => some payloadReadme) []).2 = true :=
  ⟨(c9_push_paths "config/tools.yaml".toList "testcases".toList true
      (fun _ => some payloadEcho) [] payloadEcho rfl).mpr
      ⟨payloadEcho.commits.head (by simp [payloadEcho]), by simp [payloadEcho],
       "testcases/mock_echo-test-case-2.yaml".toList, by simp [payloadEcho],
       Or.inr (by decide)⟩,
   fun h => by
    have := (c9_push_paths "config/tools.yaml".toList "testcases".toList true
      (fun _ => some payloadReadme) [] payloadReadme rfl).mp h
    obtain ⟨c, hc, f, hf, hrel⟩ := this
    simp [payloadReadme] at hc
    subst hc
    simp at hf
    subst hf
    rcases hrel with hrel | hrel
    · revert hrel; decide
    · revert hrel; decide⟩

/-- strings.Index: index of the first occurrence of `pat` in `s`
(`none` models Go's `-1`). -/
def strIndexGo : GoStr → GoStr → Option Nat
  | [], pat => if pat.isPrefixOf [] then some 0 else none
  | c :: rest, pat =>
    if pat.isPrefixOf (c :: rest) then some 0
    else (strIndexGo rest pat).map (· + 1)

/-- Embedding of `getAuthenticatedURL` (github_sync.go): with both
credentials non-empty and a scheme separator present, strip any existing
credential segment and insert `username:token@` right after the
separator. -/
def getAuthenticatedURL (repoURL username token : GoStr) : GoStr :=
  if username = [] ∨ token = [] then repoURL
  else
    match strIndexGo repoURL "://".toList with
    | none => repoURL
    | some protocolIdx =>
      let afterProtocol := repoURL.drop (protocolIdx + 3)
      let url2 :=
        match strIndexGo afterProtocol ['@'] with
        | some atIdx => repoURL.take (protocolIdx + 3) ++ afterProtocol.drop (atIdx + 1)
        | none => repoURL
      let afterProtocol2 := url2.drop (protocolIdx + 3)
      url2.take (protocolIdx + 3) ++ username ++ [':'] ++ token ++ ['@'] ++ afterProtocol2

/-- Embedding of `sanitizeURLForLogging` (github_sync.go): replace the
text between the first scheme separator and the first subsequent at-sign
with the fixed marker `***`. -/
def sanitizeURLForLogging (url : GoStr) : GoStr :=
  match strIndexGo url "://".toList with
  | none => url
  | some protocolIdx =>
    let afterProtocol := url.drop (protocolIdx + 3)
    match strIndexGo afterProtocol ['@'] with
    | some atIdx => url.take (protocolIdx + 3) ++ "***@".toList ++ afterProtocol.drop (atIdx + 1)
    | none => url

/-- The part of the post-separator text after its first at-sign (the whole
text when it has none): what `getAuthenticatedURL` keeps when stripping an
existing credential segment. -/
def afterFirstAt (rest : GoStr) : GoStr :=
  match strIndexGo rest ['@'] with
  | some a => rest.drop (a + 1)
  | none => rest

lemma strIndexGo_of_pre {pat s : GoStr} (h : pat.isPrefixOf s = true) :
    strIndexGo s pat = some 0 := by
  cases s with
  | nil => rw [strIndexGo, if_pos h]
  | cons c rest => rw [strIndexGo, if_pos h]

lemma strIndexGo_first_single (c : Char) (r : GoStr) :
    ∀ l : GoStr, c ∉ l → strIndexGo (l ++ c :: r) [c] = some l.length := by
  intro l
  induction l with
  | nil =>
    intro _
    rw [List.nil_append]
    exact strIndexGo_of_pre (by simp [List.isPrefixOf])
  | cons x xs ih =>
    intro hc
    have hx : ¬ (c == x) = true := by
      simp only [beq_iff_eq]
      intro h
      exact hc (h ▸ List.mem_cons_self _ _)
    rw [List.cons_append, strIndexGo,
      if_neg (by simp [List.isPrefixOf, hx]),
      ih (fun h => hc (List.mem_cons_of_mem _ h))]
    rfl

lemma isPrefixOf_of_take_eq {pat s s2 : GoStr} (n : Nat)
    (htake : s.take n = s2.take n) (hlen : pat.length ≤ n)
    (hp : pat.isPrefixOf s = true) : pat.isPrefixOf s2 = true := by
  rw [List.isPrefixOf_iff_prefix, List.prefix_iff_eq_take] at hp ⊢
  have h1 : s.take pat.length = s2.take pat.length := by
    have h2 := congrArg (List.take pat.length) htake
    rwa [List.take_take, List.take_take, Nat.min_eq_left hlen] at h2
  exact hp.trans h1

lemma strIndexGo_stable (pat : GoStr) :
    ∀ (s s2 : GoStr) (n i : Nat), s.take n = s2.take n → i + pat.length ≤ n →
      strIndexGo s pat = some i → strIndexGo s2 pat = some i := by
  intro s
  induction s with
  | nil =>
    intro s2 n i htake hlen hidx
    rw [strIndexGo] at hidx
    by_cases hp : pat.isPrefixOf [] = true
    · have hpat : pat = [] := by
        cases pat with
        | nil => rfl
        | cons a as => simp [List.isPrefixOf] at hp
      rw [if_pos hp] at hidx
      cases hidx
      subst hpat
      exact strIndexGo_of_pre (by simp [List.isPrefixOf])
    · rw [if_neg hp] at hidx
      cases hidx
  | cons c cs ih =>
    intro s2 n i htake hlen hidx
    rw [strIndexGo] at hidx
    by_cases hp : pat.isPrefixOf (c :: cs) = true
    · rw [if_pos hp] at hidx
      cases hidx
      have hp2 : pat.isPrefixOf s2 = true :=
        isPrefixOf_of_take_eq n htake (by omega) hp
      exact strIndexGo_of_pre hp2
    · rw [if_neg hp] at hidx
      obtain ⟨j, hj, hji⟩ := Option.map_eq_some'.mp hidx
      subst hji
      obtain ⟨m, rfl⟩ : ∃ m, n = m + 1 := ⟨n - 1, by omega⟩
      cases s2 with
      | nil => simp at htake
      | cons d ds =>
        simp only [List.take_succ_cons, List.cons.injEq] at htake
        obtain ⟨rfl, htail⟩ := htake
        have hp2 : ¬ pat.isPrefixOf (c :: ds) = true := by
          intro hcontra
          exact hp (isPrefixOf_of_take_eq (s := c :: ds) (m + 1)
            (by simp [htail.symm]) (by omega) hcontra)
        rw [strIndexGo, if_neg hp2]
        rw [ih ds m j htail (by omega) hj]
        rfl

lemma drop_pre_sep (pre rest : GoStr) :
    (pre ++ "://".toList ++ rest).drop (pre.length + 3) = rest := by
  rw [show pre ++ "://".toList ++ rest = (pre ++ "://".toList) ++ rest from by
    simp [List.append_assoc]]
  rw [show pre.length + 3 = (pre ++ "://".toList).length from by simp]
  exact List.drop_left _ _

lemma take_pre_sep (pre rest : GoStr) :
    (pre ++ "://".toList ++ rest).take (pre.length + 3) = pre ++ "://".toList := by
  rw [show pre ++ "://".toList ++ rest = (pre ++ "://".toList) ++ rest from by
    simp [List.append_assoc]]
  rw [show pre.length + 3 = (pre ++ "://".toList).length from by simp]
  exact List.take_left _ _

lemma drop_after_at (cred post : GoStr) :
    (cred ++ '@' :: post).drop (cred.length + 1) = post := by
  rw [show cred ++ '@' :: post = (cred ++ ['@']) ++ post from by simp]
  rw [show cred.length + 1 = (cred ++ ['@']).length from by simp]
  exact List.drop_left _ _

lemma sanitize_decomp (pre cred post : GoStr)
    (hidx : strIndexGo (pre ++ "://".toList ++ cred ++ '@' :: post) "://".toList
      = some pre.length)
    (hcred : '@' ∉ cred) :
    sanitizeURLForLogging (pre ++ "://".toList ++ cred ++ '@' :: post)
      = pre ++ "://".toList ++ "***@".toList ++ post := by
  rw [sanitizeURLForLogging, hidx]
  have hdrop : (pre ++ "://".toList ++ cred ++ '@' :: post).drop (pre.length + 3)
      = cred ++ '@' :: post := by
    rw [show pre ++ "://".toList ++ cred ++ '@' :: post
        = pre ++ "://".toList ++ (cred ++ '@' :: post) from by simp]
    exact drop_pre_sep pre (cred ++ '@' :: post)
  have htake : (pre ++ "://".toList ++ cred ++ '@' :: post).take (pre.length + 3)
      = pre ++ "://".toList := by
    rw [show pre ++ "://".toList ++ cred ++ '@' :: post
        = pre ++ "://".toList ++ (cred ++ '@' :: post) from by simp]
    exact take_pre_sep pre (cred ++ '@' :: post)
  dsimp only
  rw [hdrop, strIndexGo_first_single '@' post cred hcred, htake]
  dsimp only
  rw [drop_after_at]

/-- Claim C10 counterexample: a username containing an at-sign defeats the
sanitizer — embedding username `a@b` and token `tok` into
`https://host/x` and sanitizing the result leaves the token visible
(`https://***@b:tok@host/x` contains `tok`), refuting the claim that the
sanitized authenticated URL never contains the token. -/
theorem c10_counterexample :
    (strIndexGo
      (sanitizeURLForLogging
        (getAuthenticatedURL "https://host/x".toList "a@b".toList "tok".toList))
      "tok".toList).isSome = true := by decide

/-- Claim C10 (amended): (1) for every URL with a scheme separator (first
occurrence at the end of `pre`) followed by a credential segment `cred`
(the text up to the first subsequent at-sign), the sanitizer replaces the
segment with the fixed marker `***`, preserving every character before the
separator and after the at-sign; (2) for every non-empty username and
token that themselves contain no at-sign, the sanitized form of the
authenticated URL equals the original URL's scheme prefix, the marker, and
the original URL's post-credential remainder — it is independent of the
username and token, so it contains neither unless the surrounding URL text
does.  Without the at-sign proviso the credentials can leak (see the
counterexample). -/
theorem c10_sanitize :
    (∀ pre cred post : GoStr,
      strIndexGo (pre ++ "://".toList ++ cred ++ '@' :: post) "://".toList
        = some pre.length →
      '@' ∉ cred →
      sanitizeURLForLogging (pre ++ "://".toList ++ cred ++ '@' :: post)
        = pre ++ "://".toList ++ "***@".toList ++ post) ∧
    (∀ pre rest u t : GoStr,
      strIndexGo (pre ++ "://".toList ++ rest) "://".toList = some pre.length →
      u ≠ [] → t ≠ [] → '@' ∉ u → '@' ∉ t →
      sanitizeURLForLogging
        (getAuthenticatedURL (pre ++ "://".toList ++ rest) u t)
        = pre ++ "://".toList ++ "***@".toList ++ afterFirstAt rest) := by
  constructor
  · exact sanitize_decomp
  · intro pre rest u t hidx hu ht hua hta
    have hauth : getAuthenticatedURL (pre ++ "://".toList ++ rest) u t
        = pre ++ "://".toList ++ ((u ++ ':' :: t) ++ '@' :: afterFirstAt rest) := by
      rw [getAuthenticatedURL, if_neg (by tauto), hidx]
      dsimp only
      rw [drop_pre_sep]
      cases hat : strIndexGo rest ['@'] with
      | some a =>
        dsimp only
        rw [take_pre_sep]
        rw [show pre ++ "://".toList ++ rest.drop (a + 1)
            = (pre ++ "://".toList) ++ rest.drop (a + 1) from by simp]
        rw [show pre.length + 3 = (pre ++ "://".toList).length from by simp]
        rw [List.drop_left, List.take_left]
        rw [afterFirstAt, hat]
        simp [List.append_assoc]
      | none =>
        dsimp only
        rw [take_pre_sep, drop_pre_sep]
        rw [afterFirstAt, hat]
        simp [List.append_assoc]
    rw [hauth]
    have hform : pre ++ "://".toList ++ ((u ++ ':' :: t) ++ '@' :: afterFirstAt rest)
        = pre ++ "://".toList ++ (u ++ ':' :: t) ++ '@' :: afterFirstAt rest := by
      simp [List.append_assoc]
    rw [hform]
    refine sanitize_decomp pre (u ++ ':' :: t) (afterFirstAt rest) ?_ ?_
    · refine strIndexGo_stable "://".toList (pre ++ "://".toList ++ rest) _
        (pre.length + 3) pre.length ?_ (by simp) hidx
      rw [take_pre_sep]
      rw [show pre ++ "://".toList ++ (u ++ ':' :: t) ++ '@' :: afterFirstAt rest
          = pre ++ "://".toList ++ ((u ++ ':' :: t) ++ '@' :: afterFirstAt rest) from by
        simp [List.append_assoc]]
      rw [take_pre_sep]
    · intro hmem
      rcases List.mem_append.mp hmem with h | h
      · exact hua h
      · rcases List.mem_cons.mp h with h | h
        · cases h
        · exact hta h

/-- Witness for C10: part (1) scrubs a concrete URL with an embedded
credential segment, and part (2) applied to concrete credentials shows the
sanitized authenticated URL is the credential-free scrubbed form. -/
theorem c10_sanitize_witness :
    sanitizeURLForLogging
        ("https".toList ++ "://".toList ++ "user:tok".toList ++
          '@' :: "github.com/o/r.git".toList)
      = "https".toList ++ "://".toList ++ "***@".toList ++ "github.com/o/r.git".toList ∧
    sanitizeURLForLogging
        (getAuthenticatedURL ("https".toList ++ "://".toList ++ "github.com/o/r.git".toList)
          "alice".toList "tok".toList)
      = "https".toList ++ "://".toList ++ "***@".toList ++
          afterFirstAt "github.com/o/r.git".toList :=
  ⟨c10_sanitize.1 "https".toList "user:tok".toList "github.com/o/r.git".toList
      (by decide) (by decide),
   c10_sanitize.2 "https".toList "github.com/o/r.git".toList "alice".toList "tok".toList
      (by decide) (by decide) (by decide) (by decide) (by decide)⟩

end MockMCP
